import Mathlib

/-!
Formal model of the stock-screening pipeline implemented in `Testing.py`
(StocksAutomation repository).

Modelling conventions:
* Parsed numeric data (prices, strikes, bids, asks, deltas, volatility
  percentages) are rationals (`ℚ`); a missing value (Python `None`, pandas
  `NaN`) is `Option.none`.  Pandas comparisons involving a missing value
  evaluate to `False`, which the `opt*` helpers reproduce.
* The floor computation divides by `Real.sqrt 252`, so floor values live in
  `ℝ` (`Option ℝ` for a floor that was not computed).
* Network fetching and HTML/JSON decoding are external effects; they are
  modelled by environment values describing what the parse of the fetched
  payload yielded, or that an exception was raised (`FetchEnv.fail`,
  `OptOutcome.throws`).  Everything downstream of the fetch is translated
  directly from the source.
-/

namespace StocksAutomation

/-- Comparison `a < b` on optional numbers.  In pandas a comparison with a
missing value (`NaN`) is `False`; both operands must be present. -/
def optLt (a b : Option ℚ) : Bool :=
  match a, b with
  | some x, some y => decide (x < y)
  | _, _ => false

/-- Comparison `t ≤ a` on an optional number, `False` when missing
(pandas `NaN ≥ t` is `False`). -/
def optGe (a : Option ℚ) (t : ℚ) : Bool :=
  match a with
  | some x => decide (t ≤ x)
  | none => false

/-- One per-symbol record of `get_moving_avg` (`Testing.py` lines 121-136):
the `data` dict, with every technical field initially absent. -/
structure TechRecord where
  symbol : String
  ma20 : Option ℚ
  hv20 : Option ℚ
  hv50 : Option ℚ
  ma50 : Option ℚ
  ma100 : Option ℚ
  ma200 : Option ℚ
  floor20_1 : Option ℝ
  floor20_2 : Option ℝ
  floor20_3 : Option ℝ
  floor50_1 : Option ℝ
  floor50_2 : Option ℝ
  floor50_3 : Option ℝ
  currentPrice : Option ℚ

/-- The freshly initialised `data` dict for a symbol: every field `None`
except `Symbol` (`Testing.py` lines 121-136). -/
def blank (s : String) : TechRecord :=
  ⟨s, none, none, none, none, none, none, none, none, none, none, none, none, none⟩

/-- Rounding to two decimal places, as `round(x, 2)` in `Testing.py`
lines 190-198.  The spec (§4.2) allows either half-up or half-even; we use
Mathlib's `round` (half-up).  The two only differ on exact halves, which the
irrational floor values here never hit. -/
noncomputable def round2 (x : ℝ) : ℝ := (round (x * 100) : ℤ) / 100

/-- Lines 188-192 of `Testing.py`:
`if data["MA_20"] and data["HV_20"]:` followed by the three floor
assignments.  Python truthiness makes the guard fail not only when a value
is `None` but also when it is `0.0`, hence the `≠ 0` conjuncts. -/
noncomputable def computeFloors20 (r : TechRecord) : TechRecord :=
  match r.ma20, r.hv20 with
  | some ma, some hv =>
      if ma ≠ 0 ∧ hv ≠ 0 then
        let hv_daily : ℝ := ((hv : ℝ) / 100) / Real.sqrt 252
        { r with
          floor20_1 := some (round2 ((ma : ℝ) * (1 - 1 * hv_daily)))
          floor20_2 := some (round2 ((ma : ℝ) * (1 - 2 * hv_daily)))
          floor20_3 := some (round2 ((ma : ℝ) * (1 - 3 * hv_daily))) }
      else r
  | _, _ => r

/-- Lines 194-198 of `Testing.py`: the 50-day analogue of
`computeFloors20`. -/
noncomputable def computeFloors50 (r : TechRecord) : TechRecord :=
  match r.ma50, r.hv50 with
  | some ma, some hv =>
      if ma ≠ 0 ∧ hv ≠ 0 then
        let hv_daily : ℝ := ((hv : ℝ) / 100) / Real.sqrt 252
        { r with
          floor50_1 := some (round2 ((ma : ℝ) * (1 - 1 * hv_daily)))
          floor50_2 := some (round2 ((ma : ℝ) * (1 - 2 * hv_daily)))
          floor50_3 := some (round2 ((ma : ℝ) * (1 - 3 * hv_daily))) }
      else r
  | _, _ => r

/-- Floor price exactly as the spec words it (§3, §8):
`movingAverage × (1 − sigmaMultiple × (volatilityPct/100)/sqrt(252))`,
rounded to 2 decimals.  Stated separately from `computeFloors20` so that the
two can be compared. -/
noncomputable def floorPrice (ma hv : ℚ) (k : ℕ) : ℝ :=
  round2 ((ma : ℝ) * (1 - (k : ℝ) * (((hv : ℝ) / 100) / Real.sqrt 252)))

/-- Outcome of the substring dispatch on a table row's period label
(`"20-Day" in period` elif-chain, lines 159-166 and 181-184). -/
inductive PeriodLabel where
  | d20 | d50 | d100 | d200 | other

/-- What the parse of one fetched Barchart technical-analysis page yielded.
`maRows`/`hvRows` are `none` when the page had too few
`analysis-table-wrapper` divs or no inner `<table>`; a row's value is `none`
when `float(value)` raised `ValueError` (the inner `try`, lines 155-158 /
177-180, continues).  `lastPrice` is `none` when the `lastPrice` regex did
not match, `some none` when `float` on the match raised (an exception that
escapes to the per-symbol handler), `some (some v)` on success. -/
structure Page where
  maRows : Option (List (PeriodLabel × Option ℚ))
  hvRows : Option (List (PeriodLabel × Option ℚ))
  lastPrice : Option (Option ℚ)

/-- Per-symbol fetch environment: `fail` when `requests.get`/parsing raised
before any field was filled; otherwise the parsed page. -/
inductive FetchEnv where
  | fail
  | page (p : Page)

/-- One iteration of the moving-average table loop (lines 150-166): a row
whose value failed to parse is skipped, otherwise the elif-chain stores the
value under the matching window. -/
def applyMARow (r : TechRecord) (lbl : PeriodLabel) (v : Option ℚ) : TechRecord :=
  match v with
  | none => r
  | some x =>
    match lbl with
    | .d20 => { r with ma20 := some x }
    | .d50 => { r with ma50 := some x }
    | .d100 => { r with ma100 := some x }
    | .d200 => { r with ma200 := some x }
    | .other => r

/-- One iteration of the historical-volatility table loop (lines 172-184);
only the 20- and 50-day rows are recognised. -/
def applyHVRow (r : TechRecord) (lbl : PeriodLabel) (v : Option ℚ) : TechRecord :=
  match v with
  | none => r
  | some x =>
    match lbl with
    | .d20 => { r with hv20 := some x }
    | .d50 => { r with hv50 := some x }
    | _ => r

/-- The moving-average table loop (lines 146-166). -/
def fillMA (r : TechRecord) (rows : Option (List (PeriodLabel × Option ℚ))) : TechRecord :=
  match rows with
  | none => r
  | some l => l.foldl (fun acc pr => applyMARow acc pr.1 pr.2) r

/-- The historical-volatility table loop (lines 168-184). -/
def fillHV (r : TechRecord) (rows : Option (List (PeriodLabel × Option ℚ))) : TechRecord :=
  match rows with
  | none => r
  | some l => l.foldl (fun acc pr => applyHVRow acc pr.1 pr.2) r

/-- The body of the per-symbol loop of `get_moving_avg` (lines 118-208):
initialise the record, and inside `try` fill both tables, compute the
floors, then store the last price (`if last_price:` is again a truthiness
test, so `0.0` is not stored).  On `FetchEnv.fail` the exception handler
leaves the blank record; a `lastPrice` parse failure (`some none`) is caught
after the floors were already computed.  Either way the record is appended. -/
noncomputable def processSymbol (s : String) (env : FetchEnv) : TechRecord :=
  match env with
  | .fail => blank s
  | .page p =>
    let r := fillHV (fillMA (blank s) p.maRows) p.hvRows
    let r := computeFloors50 (computeFloors20 r)
    match p.lastPrice with
    | some (some v) => if v ≠ 0 then { r with currentPrice := some v } else r
    | _ => r

/-- `get_moving_avg` (lines 110-211): one record per ticker, in input
order, regardless of per-symbol failures. -/
noncomputable def get_moving_avg (tickers : List String) (env : String → FetchEnv) : List TechRecord :=
  tickers.map (fun s => processSymbol s (env s))

/-- The moving-average trend filter of `read_and_filter_stocks`
(lines 426-430): `Current Price > MA_50 & > MA_100 & > MA_200`; any missing
operand makes the pandas comparison `False`. -/
def trendKeep (r : TechRecord) : Bool :=
  optLt r.ma50 r.currentPrice && optLt r.ma100 r.currentPrice && optLt r.ma200 r.currentPrice

/-- One put-option row of the Barchart options chain, restricted to the
columns the pipeline uses (`base_columns`, line 343). -/
structure PutRow where
  baseSymbol : String
  strikePrice : ℚ
  bidPrice : Option ℚ
  askPrice : Option ℚ
  delta : Option ℚ
  volatility : Option ℚ
deriving DecidableEq

/-- Placeholder row used only as the default of `List.getD`; every access
is index-checked. -/
def dummyPut : PutRow := ⟨"", 0, none, none, none, none⟩

/-- A selected option row together with the floor labels whose tag column
was set to 1 on it (lines 313-314). -/
structure TaggedRow where
  row : PutRow
  tags : List String
deriving DecidableEq

/-- Index of the first minimum of `|strike − t|`, as pandas
`(df["strikePrice"] - strike_val).abs().idxmin()` (line 310): the minimum
distance, ties resolved to the earliest row. -/
def idxminD (t : ℚ) : List ℚ → Option ℕ
  | [] => none
  | s :: rest =>
    match idxminD t rest with
    | none => some 0
    | some j => if |List.getD rest j 0 - t| < |s - t| then some (j + 1) else some 0

/-- Line 310 of `Testing.py`: the index of the put row whose strike is
nearest to the target value `v`. -/
def chosenIdx (puts : List PutRow) (v : ℚ) : Option ℕ :=
  idxminD v (puts.map (fun p => p.strikePrice))

/-- The target-strike selection of `get_barchart_put_options`
(lines 301-321), given the fetched put rows (ascending strike order) and the
`target_strike` label/price pairs: for each target, the nearest-strike row
index is chosen (`idxmin`), the label's tag column is 1 exactly on that row,
and only rows chosen by at least one target are kept, deduplicated
(`indices_to_keep` is a set). -/
def get_barchart_put_options (puts : List PutRow) (target_strike : List (String × ℚ)) :
    List TaggedRow :=
  let keptIdx : List ℕ := (target_strike.filterMap (fun lv => chosenIdx puts lv.2)).dedup
  keptIdx.map (fun i =>
    { row := puts.getD i dummyPut
      tags := (target_strike.filter (fun lv => decide (chosenIdx puts lv.2 = some i))).map
        (fun lv => lv.1) })

/-- Outcome of one symbol's options fetch inside the `try` of
`enrich_df_with_put_options` (lines 338-357): either some exception was
raised (`throws`) or `get_barchart_put_options` returned these selected
rows (possibly none at all, e.g. an empty chain). -/
inductive OptOutcome where
  | throws
  | ok (rows : List TaggedRow)

/-- The accumulation loop of `enrich_df_with_put_options` (lines 325-359):
per symbol, append the selected rows; a caught exception contributes
nothing and the loop continues with the next symbol. -/
def enrich_df_with_put_options (env : String → OptOutcome) : List TechRecord → List TaggedRow
  | [] => []
  | r :: rest =>
    (match env r.symbol with
     | OptOutcome.throws => []
     | OptOutcome.ok rows => rows) ++ enrich_df_with_put_options env rest

/-- One row of the merged table `df_w_options` (line 360: technicals joined
with the selected option rows on `Symbol = baseSymbol`), restricted to the
columns the screening stages read.  `tag*` are the `Floor_*_Tag` indicator
columns (0/1 on matched option rows, missing on symbols with no options
match). -/
structure MRow where
  symbol : String
  currentPrice : Option ℚ
  floor20_1 : Option ℝ
  floor20_2 : Option ℝ
  floor20_3 : Option ℝ
  floor50_1 : Option ℝ
  floor50_2 : Option ℝ
  floor50_3 : Option ℝ
  strikePrice : Option ℚ
  bidPrice : Option ℚ
  askPrice : Option ℚ
  delta : Option ℚ
  volatility : Option ℚ
  tag20_1 : Option ℚ
  tag20_2 : Option ℚ
  tag20_3 : Option ℚ
  tag50_1 : Option ℚ
  tag50_2 : Option ℚ
  tag50_3 : Option ℚ

/-- The `(tag column, floor label, floor value)` triples in the column
order of the merged table (`tag_cols` / `floor_val_cols`, lines 442-444). -/
def tagList (m : MRow) : List (Option ℚ × String × Option ℝ) :=
  [(m.tag20_1, "Floor_20_1", m.floor20_1), (m.tag20_2, "Floor_20_2", m.floor20_2),
   (m.tag20_3, "Floor_20_3", m.floor20_3), (m.tag50_1, "Floor_50_1", m.floor50_1),
   (m.tag50_2, "Floor_50_2", m.floor50_2), (m.tag50_3, "Floor_50_3", m.floor50_3)]

/-- One expanded row (`expanded_rows`, lines 446-458): the merged row with
the floor/tag columns replaced by a single `Floor Tag`/`Floor Value` pair;
`profitability` is added later (line 464). -/
structure SRow where
  symbol : String
  currentPrice : Option ℚ
  floorTag : String
  floorValue : Option ℝ
  strikePrice : Option ℚ
  bidPrice : Option ℚ
  askPrice : Option ℚ
  delta : Option ℚ
  volatility : Option ℚ
  profitability : Option ℚ

/-- The inner loop of lines 448-458: one expanded row per tag column whose
value equals 1 (`row.get(tag_col) == 1`; a missing tag compares `False`). -/
def expandRow (m : MRow) : List SRow :=
  (tagList m).filterMap (fun e =>
    if e.1 = some 1 then
      some { symbol := m.symbol, currentPrice := m.currentPrice, floorTag := e.2.1,
             floorValue := e.2.2, strikePrice := m.strikePrice, bidPrice := m.bidPrice,
             askPrice := m.askPrice, delta := m.delta, volatility := m.volatility,
             profitability := none }
    else none)

/-- The outer loop of lines 448-458 over all merged rows. -/
def expandAll : List MRow → List SRow
  | [] => []
  | m :: rest => expandRow m ++ expandAll rest

/-- `Profitability` (line 464): `((bidPrice + askPrice) / 2) / strikePrice`,
missing whenever one of the three inputs is missing (pandas `NaN`
propagation). -/
def profOf (r : SRow) : Option ℚ :=
  match r.bidPrice, r.askPrice, r.strikePrice with
  | some b, some a, some s => some (((b + a) / 2) / s)
  | _, _, _ => none

/-- The `Profitability` column assignment (line 464). -/
def addProf (r : SRow) : SRow := { r with profitability := profOf r }

/-- The bid/ask spread test of line 472: `askPrice / bidPrice < 1.5`; a
missing operand makes the pandas comparison `False`.  A zero bid never
reaches this stage (it is removed at line 470). -/
def spreadPred (r : SRow) : Bool :=
  match r.askPrice, r.bidPrice with
  | some a, some b => decide (a / b < 3 / 2)
  | _, _ => false

/-- Screening stage 1 (line 436): drop rows with a missing `bidPrice`. -/
def stage1 (l : List SRow) : List SRow := l.filter (fun r => r.bidPrice.isSome)

/-- Screening stage 2 (line 464): compute `Profitability`. -/
def stage2 (l : List SRow) : List SRow := l.map addProf

/-- Screening stage 3 (line 466): keep rows with
`Profitability ≥ profit_target`. -/
def stage3 (pt : ℚ) (l : List SRow) : List SRow :=
  l.filter (fun r => optGe r.profitability pt)

/-- Screening stage 4 (line 468): keep rows with `delta ≥ -0.15`. -/
def stage4 (l : List SRow) : List SRow := l.filter (fun r => optGe r.delta (-3 / 20))

/-- Screening stage 5 (line 470): drop rows with `bidPrice == 0`.  Note
`NaN != 0` is `True` in pandas, so a missing bid passes this particular
test (it was already dropped in stage 1). -/
def stage5 (l : List SRow) : List SRow := l.filter (fun r => decide (r.bidPrice ≠ some 0))

/-- Screening stage 6 (line 472): keep rows with `askPrice/bidPrice < 1.5`. -/
def stage6 (l : List SRow) : List SRow := l.filter spreadPred

/-- The Screening Filter of spec §4.5: the six stages in their fixed order
on the enriched (expanded) table. -/
def screenFilter (pt : ℚ) (l : List SRow) : List SRow :=
  stage6 (stage5 (stage4 (stage3 pt (stage2 (stage1 l)))))

/-- The screening tail of `read_and_filter_stocks` (lines 436-476),
translated statement by statement: the missing-bid filter (line 436) runs
on the merged table, then the expansion (lines 446-461), then the
`Profitability` assignment and the four remaining filters (lines 464-472). -/
def read_and_filter_stocks (profit_target : ℚ) (merged : List MRow) : List SRow :=
  let kept := merged.filter (fun m => m.bidPrice.isSome)
  let expanded := expandAll kept
  let withProf := expanded.map addProf
  let f3 := withProf.filter (fun r => optGe r.profitability profit_target)
  let f4 := f3.filter (fun r => optGe r.delta (-3 / 20))
  let f5 := f4.filter (fun r => decide (r.bidPrice ≠ some 0))
  f5.filter spreadPred

/-- Fixture: the ascending put chain with strikes 90, 95, 100, 105 used by
the spec's §8 determinism example. -/
def putChain97 : List PutRow :=
  [⟨"XYZ", 90, none, none, none, none⟩, ⟨"XYZ", 95, none, none, none, none⟩,
   ⟨"XYZ", 100, none, none, none, none⟩, ⟨"XYZ", 105, none, none, none, none⟩]

/- ------------------------------------------------------------------ -/
/- Helper lemmas                                                      -/
/- ------------------------------------------------------------------ -/

theorem idxminD_isSome (t s : ℚ) (rest : List ℚ) : ∃ j, idxminD t (s :: rest) = some j := by
  cases h : idxminD t rest with
  | none => exact ⟨0, by simp only [idxminD, h]⟩
  | some j =>
    by_cases hc : |List.getD rest j 0 - t| < |s - t|
    · exact ⟨j + 1, by simp only [idxminD, h]; rw [if_pos hc]⟩
    · exact ⟨0, by simp only [idxminD, h]; rw [if_neg hc]⟩

theorem idxminD_spec (t : ℚ) :
    ∀ (l : List ℚ) (j : ℕ), idxminD t l = some j →
      j < l.length ∧
      (∀ i, i < l.length → |l.getD j 0 - t| ≤ |l.getD i 0 - t|) ∧
      (∀ i, i < l.length → |l.getD i 0 - t| = |l.getD j 0 - t| → j ≤ i) := by
  intro l
  induction l with
  | nil => intro j h; simp [idxminD] at h
  | cons s rest ih =>
    intro j h
    cases heq : idxminD t rest with
    | none =>
      have hrest : rest = [] := by
        cases rest with
        | nil => rfl
        | cons a as =>
          obtain ⟨j0, hj0⟩ := idxminD_isSome t a as
          rw [hj0] at heq
          exact absurd heq (by simp)
      subst hrest
      simp [idxminD] at h
      subst h
      refine ⟨by simp, ?_, ?_⟩
      · intro i hi
        have hz : i = 0 := by simpa [Nat.lt_one_iff] using hi
        subst hz
        exact le_refl _
      · intro i hi _
        exact Nat.zero_le i
    | some j0 =>
      obtain ⟨hlen, hmin, hfirst⟩ := ih j0 heq
      simp only [idxminD, heq] at h
      by_cases hc : |List.getD rest j0 0 - t| < |s - t|
      · rw [if_pos hc] at h
        obtain rfl : j0 + 1 = j := Option.some_injective _ h
        refine ⟨by simpa using Nat.succ_lt_succ hlen, ?_, ?_⟩
        · intro i hi
          cases i with
          | zero =>
            simp only [List.getD_cons_succ, List.getD_cons_zero]
            exact le_of_lt hc
          | succ i' =>
            simp only [List.getD_cons_succ]
            exact hmin i' (by simpa using hi)
        · intro i hi htie
          cases i with
          | zero =>
            exfalso
            simp only [List.getD_cons_succ, List.getD_cons_zero] at htie
            rw [htie] at hc
            exact lt_irrefl _ hc
          | succ i' =>
            have := hfirst i' (by simpa using hi)
              (by simpa only [List.getD_cons_succ] using htie)
            omega
      · rw [if_neg hc] at h
        obtain rfl : 0 = j := Option.some_injective _ h
        push_neg at hc
        refine ⟨by simp, ?_, ?_⟩
        · intro i hi
          cases i with
          | zero => exact le_refl _
          | succ i' =>
            simp only [List.getD_cons_succ, List.getD_cons_zero]
            exact le_trans hc (hmin i' (by simpa using hi))
        · intro i _ _
          exact Nat.zero_le i

theorem strikes_getD (puts : List PutRow) :
    ∀ i, i < puts.length →
      (puts.map (fun p => p.strikePrice)).getD i 0 = (puts.getD i dummyPut).strikePrice := by
  induction puts with
  | nil => intro i h; simp at h
  | cons p rest ih =>
    intro i h
    cases i with
    | zero => simp
    | succ i' => simpa using ih i' (by simpa using h)

theorem processSymbol_fail (s : String) : processSymbol s FetchEnv.fail = blank s := rfl

theorem applyMARow_symbol (r : TechRecord) (lbl : PeriodLabel) (v : Option ℚ) :
    (applyMARow r lbl v).symbol = r.symbol := by
  cases v with
  | none => rfl
  | some x => cases lbl <;> rfl

theorem applyHVRow_symbol (r : TechRecord) (lbl : PeriodLabel) (v : Option ℚ) :
    (applyHVRow r lbl v).symbol = r.symbol := by
  cases v with
  | none => rfl
  | some x => cases lbl <;> rfl

theorem foldlMA_symbol :
    ∀ (l : List (PeriodLabel × Option ℚ)) (r : TechRecord),
      (l.foldl (fun acc pr => applyMARow acc pr.1 pr.2) r).symbol = r.symbol := by
  intro l
  induction l with
  | nil => intro r; rfl
  | cons pr rest ih => intro r; rw [List.foldl_cons, ih, applyMARow_symbol]

theorem foldlHV_symbol :
    ∀ (l : List (PeriodLabel × Option ℚ)) (r : TechRecord),
      (l.foldl (fun acc pr => applyHVRow acc pr.1 pr.2) r).symbol = r.symbol := by
  intro l
  induction l with
  | nil => intro r; rfl
  | cons pr rest ih => intro r; rw [List.foldl_cons, ih, applyHVRow_symbol]

theorem fillMA_symbol (rows : Option (List (PeriodLabel × Option ℚ))) (r : TechRecord) :
    (fillMA r rows).symbol = r.symbol := by
  cases rows with
  | none => rfl
  | some l => exact foldlMA_symbol l r

theorem fillHV_symbol (rows : Option (List (PeriodLabel × Option ℚ))) (r : TechRecord) :
    (fillHV r rows).symbol = r.symbol := by
  cases rows with
  | none => rfl
  | some l => exact foldlHV_symbol l r

theorem computeFloors20_symbol (r : TechRecord) : (computeFloors20 r).symbol = r.symbol := by
  cases hma : r.ma20 <;> cases hhv : r.hv20 <;> simp only [computeFloors20, hma, hhv]
  split <;> rfl

theorem computeFloors50_symbol (r : TechRecord) : (computeFloors50 r).symbol = r.symbol := by
  cases hma : r.ma50 <;> cases hhv : r.hv50 <;> simp only [computeFloors50, hma, hhv]
  split <;> rfl

theorem processSymbol_symbol (s : String) (env : FetchEnv) : (processSymbol s env).symbol = s := by
  cases env with
  | fail => rfl
  | page p =>
    have base :
        (computeFloors50 (computeFloors20 (fillHV (fillMA (blank s) p.maRows) p.hvRows))).symbol =
          s := by
      rw [computeFloors50_symbol, computeFloors20_symbol, fillHV_symbol, fillMA_symbol]
      rfl
    simp only [processSymbol]
    split
    · split
      · exact base
      · exact base
    · exact base

theorem get_moving_avg_getD (env : String → FetchEnv) :
    ∀ (l : List String) (i : ℕ), i < l.length →
      (get_moving_avg l env).getD i (blank "") =
        processSymbol (l.getD i "") (env (l.getD i "")) := by
  intro l
  induction l with
  | nil => intro i h; simp at h
  | cons s rest ih =>
    intro i h
    cases i with
    | zero => simp [get_moving_avg]
    | succ i' =>
      simpa [get_moving_avg] using ih i' (by simpa using h)

/- ------------------------------------------------------------------ -/
/- Claim C2                                                           -/
/- ------------------------------------------------------------------ -/

/-- C2: nearest-strike matching is deterministic.  For any put chain in
ascending strike order and any target, the row index chosen by the `idxmin`
step of `get_barchart_put_options` minimises `|strikePrice − target|`, and
on a tie it is the earliest (ascending-strike-first) row; on the concrete
chain 90/95/100/105 with target 97, the chosen row is the one with
strike 95. -/
theorem claim_C2 :
    (∀ (puts : List PutRow) (t : ℚ) (j : ℕ),
      List.Chain' (fun a b => a.strikePrice ≤ b.strikePrice) puts →
      idxminD t (puts.map (fun p => p.strikePrice)) = some j →
      j < puts.length ∧
      (∀ i, i < puts.length →
        |(puts.getD j dummyPut).strikePrice - t| ≤ |(puts.getD i dummyPut).strikePrice - t|) ∧
      (∀ i, i < puts.length →
        |(puts.getD i dummyPut).strikePrice - t| = |(puts.getD j dummyPut).strikePrice - t| →
        j ≤ i)) ∧
    idxminD 97 (putChain97.map (fun p => p.strikePrice)) = some 1 ∧
    (putChain97.getD 1 dummyPut).strikePrice = 95 := by
  refine ⟨?_, ?_, rfl⟩
  · intro puts t j _ h
    obtain ⟨hlen, hmin, hfirst⟩ := idxminD_spec t (puts.map (fun p => p.strikePrice)) j h
    rw [List.length_map] at hlen
    refine ⟨hlen, ?_, ?_⟩
    · intro i hi
      have := hmin i (by simpa using hi)
      rwa [strikes_getD puts j hlen, strikes_getD puts i hi] at this
    · intro i hi htie
      refine hfirst i (by simpa using hi) ?_
      rwa [strikes_getD puts j hlen, strikes_getD puts i hi]
  · norm_num [putChain97, idxminD]

/-- Witness for C2 at the spec's §8 example: the chosen row (strike 95) is
at least as close to 97 as the strike-100 row. -/
theorem claim_C2_witness :
    |(putChain97.getD 1 dummyPut).strikePrice - 97| ≤
      |(putChain97.getD 2 dummyPut).strikePrice - 97| :=
  (claim_C2.1 putChain97 97 1 (by norm_num [putChain97, List.chain'_cons])
    (by norm_num [putChain97, idxminD])).2.1 2 (by norm_num [putChain97])

/- ------------------------------------------------------------------ -/
/- Claim C4                                                           -/
/- ------------------------------------------------------------------ -/

/-- C4: per-symbol failure isolation.  A symbol whose technicals fetch
raises yields the blank record (which the moving-average trend filter then
drops, so it contributes no enriched rows), and a symbol whose options
fetch raises contributes nothing to the enriched data while the loop's
output for all other symbols is unchanged — the exception never escapes
the loop. -/
theorem claim_C4 :
    (∀ (s : String) (env : String → FetchEnv), env s = FetchEnv.fail →
      processSymbol s (env s) = blank s ∧ trendKeep (blank s) = false) ∧
    (∀ (oenv : String → OptOutcome) (xs ys : List TechRecord) (r : TechRecord),
      oenv r.symbol = OptOutcome.throws →
      enrich_df_with_put_options oenv (xs ++ r :: ys) =
        enrich_df_with_put_options oenv xs ++ enrich_df_with_put_options oenv ys) := by
  constructor
  · intro s env h
    rw [h]
    exact ⟨rfl, rfl⟩
  · intro oenv xs ys r h
    induction xs with
    | nil => simp [enrich_df_with_put_options, h]
    | cons x xs ih => simp [enrich_df_with_put_options, ih, List.append_assoc]

/-- Witness for C4: a concrete failing technicals fetch yields the blank
record, and a concrete throwing options fetch contributes zero rows. -/
theorem claim_C4_witness :
    (processSymbol "AAPL" ((fun _ => FetchEnv.fail) "AAPL") = blank "AAPL" ∧
      trendKeep (blank "AAPL") = false) ∧
    enrich_df_with_put_options (fun _ => OptOutcome.throws) ([] ++ blank "NVDA" :: []) =
      enrich_df_with_put_options (fun _ => OptOutcome.throws) [] ++
        enrich_df_with_put_options (fun _ => OptOutcome.throws) [] :=
  ⟨claim_C4.1 "AAPL" (fun _ => FetchEnv.fail) rfl,
   claim_C4.2 (fun _ => OptOutcome.throws) [] [] (blank "NVDA") rfl⟩

/- ------------------------------------------------------------------ -/
/- Claim C10                                                          -/
/- ------------------------------------------------------------------ -/

/-- C10: `get_moving_avg` returns exactly one record per input symbol, in
input order; the record's `Symbol` field is always the ticker, and a symbol
whose fetch raised before anything was parsed yields the blank record
(every technical field absent). -/
theorem claim_C10 :
    (∀ (tickers : List String) (env : String → FetchEnv),
      (get_moving_avg tickers env).length = tickers.length) ∧
    (∀ (tickers : List String) (env : String → FetchEnv) (i : ℕ), i < tickers.length →
      ((get_moving_avg tickers env).getD i (blank "")).symbol = tickers.getD i "" ∧
      (env (tickers.getD i "") = FetchEnv.fail →
        (get_moving_avg tickers env).getD i (blank "") = blank (tickers.getD i ""))) := by
  constructor
  · intro tickers env
    simp [get_moving_avg]
  · intro tickers env i hi
    rw [get_moving_avg_getD env tickers i hi]
    constructor
    · exact processSymbol_symbol _ _
    · intro hfail
      rw [hfail]
      rfl

/-- Witness for C10 on a concrete two-symbol run whose first fetch fails. -/
theorem claim_C10_witness :
    (get_moving_avg ["AAPL", "MSFT"] (fun _ => FetchEnv.fail)).length =
      (["AAPL", "MSFT"] : List String).length ∧
    ((get_moving_avg ["AAPL", "MSFT"] (fun _ => FetchEnv.fail)).getD 0 (blank "")).symbol =
      (["AAPL", "MSFT"] : List String).getD 0 "" :=
  ⟨claim_C10.1 ["AAPL", "MSFT"] (fun _ => FetchEnv.fail),
   (claim_C10.2 ["AAPL", "MSFT"] (fun _ => FetchEnv.fail) 0 (by norm_num)).1⟩

/- ------------------------------------------------------------------ -/
/- Claims C1 and C6: the floor calculator                             -/
/- ------------------------------------------------------------------ -/

theorem sqrt252_gt : (15.86 : ℝ) < Real.sqrt 252 := by
  rw [show (15.86 : ℝ) = Real.sqrt (15.86 ^ 2) by rw [Real.sqrt_sq (by norm_num)]]
  exact Real.sqrt_lt_sqrt (by positivity) (by norm_num)

theorem sqrt252_lt : Real.sqrt 252 < 15.89 := by
  rw [show (15.89 : ℝ) = Real.sqrt (15.89 ^ 2) by rw [Real.sqrt_sq (by norm_num)]]
  exact Real.sqrt_lt_sqrt (by norm_num) (by norm_num)

theorem sqrt252_pos : (0 : ℝ) < Real.sqrt 252 := lt_trans (by norm_num) sqrt252_gt

theorem floorPrice_example : floorPrice 100 (127 / 4) 2 = 96 := by
  have hs0 := sqrt252_pos
  have hsne : Real.sqrt 252 ≠ 0 := ne_of_gt hs0
  have key : (((100 : ℚ) : ℝ)) * (1 - ((2 : ℕ) : ℝ) *
      ((((127 / 4 : ℚ) : ℝ)) / 100 / Real.sqrt 252)) * 100 =
      10000 - 6350 / Real.sqrt 252 := by
    push_cast
    field_simp
    ring
  have h1 : 6350 / Real.sqrt 252 < 400.5 := by
    rw [div_lt_iff₀ hs0]
    nlinarith [sqrt252_gt]
  have h2 : (399.5 : ℝ) < 6350 / Real.sqrt 252 := by
    rw [lt_div_iff₀ hs0]
    nlinarith [sqrt252_lt]
  have hround : round ((10000 : ℝ) - 6350 / Real.sqrt 252) = 9600 := by
    rw [round_eq]
    have : (⌊(10000 : ℝ) - 6350 / Real.sqrt 252 + 1 / 2⌋ : ℤ) = 9600 := by
      apply Int.floor_eq_iff.mpr
      constructor
      · push_cast
        linarith
      · push_cast
        linarith
    exact this
  simp only [floorPrice, round2]
  rw [key, hround]
  norm_num

/-- C1 (amended: the guard requires the moving average and the volatility
to be present *and nonzero*, since Python truthiness treats `0.0` like
`None`): whenever `get_moving_avg` computes 20-day floors, each equals the
spec's formula `round2(MA × (1 − k×(HV/100)/√252))`; the worked example
`MA=100, HV=31.75, k=2` gives exactly `96.00`; and the `(window, k)` pairs
are independent — the 50-day pass never touches the 20-day floors and
vice versa, while each 20-day floor is a function of `(MA_20, HV_20, k)`
alone. -/
theorem claim_C1 :
    (∀ (r : TechRecord) (ma hv : ℚ), r.ma20 = some ma → r.hv20 = some hv →
      ma ≠ 0 → hv ≠ 0 →
      (computeFloors20 r).floor20_1 = some (floorPrice ma hv 1) ∧
      (computeFloors20 r).floor20_2 = some (floorPrice ma hv 2) ∧
      (computeFloors20 r).floor20_3 = some (floorPrice ma hv 3)) ∧
    floorPrice 100 (127 / 4) 2 = 96 ∧
    (∀ r : TechRecord,
      (computeFloors50 r).floor20_1 = r.floor20_1 ∧
      (computeFloors50 r).floor20_2 = r.floor20_2 ∧
      (computeFloors50 r).floor20_3 = r.floor20_3) ∧
    (∀ r : TechRecord,
      (computeFloors20 r).floor50_1 = r.floor50_1 ∧
      (computeFloors20 r).floor50_2 = r.floor50_2 ∧
      (computeFloors20 r).floor50_3 = r.floor50_3) := by
  refine ⟨?_, floorPrice_example, ?_, ?_⟩
  · intro r ma hv hma hhv h1 h2
    simp only [computeFloors20, hma, hhv, if_pos (show ma ≠ 0 ∧ hv ≠ 0 from ⟨h1, h2⟩)]
    refine ⟨?_, ?_, ?_⟩ <;> simp [floorPrice]
  · intro r
    cases h1 : r.ma50 <;> cases h2 : r.hv50 <;> simp only [computeFloors50, h1, h2]
    · exact ⟨trivial, trivial, trivial⟩
    · exact ⟨trivial, trivial, trivial⟩
    · exact ⟨trivial, trivial, trivial⟩
    · split <;> exact ⟨rfl, rfl, rfl⟩
  · intro r
    cases h1 : r.ma20 <;> cases h2 : r.hv20 <;> simp only [computeFloors20, h1, h2]
    · exact ⟨trivial, trivial, trivial⟩
    · exact ⟨trivial, trivial, trivial⟩
    · exact ⟨trivial, trivial, trivial⟩
    · split <;> exact ⟨rfl, rfl, rfl⟩

/-- C1 counterexample to the claim as literally stated: with
`MA_20 = 100` present and `HV_20 = 0` present, the code computes no floor
at all (`None`), while the claimed formula value would be `100.00`. -/
theorem claim_C1_counterexample :
    (computeFloors20 { blank "ZRO" with ma20 := some 100, hv20 := some 0 }).floor20_1 = none ∧
    floorPrice 100 0 1 = 100 := by
  constructor
  · simp only [computeFloors20, blank]
    norm_num
  · simp only [floorPrice, round2]
    push_cast
    rw [zero_div, zero_div, mul_zero, sub_zero, mul_one]
    rw [show ((100 : ℝ) * 100) = ((10000 : ℤ) : ℝ) by norm_num, round_intCast]
    norm_num

/-- Witness for C1 at the spec's §8 example: a record with
`MA_20 = 100`, `HV_20 = 31.75` gets `Floor_20_2 = 96.00`. -/
theorem claim_C1_witness :
    (computeFloors20 { blank "XYZ" with ma20 := some 100, hv20 := some (127 / 4) }).floor20_2 =
      some 96 := by
  have h := (claim_C1.1 { blank "XYZ" with ma20 := some 100, hv20 := some (127 / 4) }
    100 (127 / 4) rfl rfl (by norm_num) (by norm_num)).2.1
  rw [h, claim_C1.2.1]

/-- C6 is refuted by the code: `Testing.py` line 188 comments "Compute the
floor if both values are available" but tests Python truthiness, so an
available historical volatility of `0.0` yields no floor at all, where the
claim (and the spec's `float ≥ 0` input domain) requires a floor equal to
the moving average (`floorPrice 50 0 1 = 50`). -/
theorem claim_C6 :
    (computeFloors20 { blank "ZV" with ma20 := some 50, hv20 := some 0 }).floor20_1 = none ∧
    (computeFloors20 { blank "ZV" with ma20 := some 50, hv20 := some 0 }).floor20_2 = none ∧
    (computeFloors20 { blank "ZV" with ma20 := some 50, hv20 := some 0 }).floor20_3 = none ∧
    floorPrice 50 0 1 = 50 := by
  refine ⟨?_, ?_, ?_, ?_⟩
  · simp only [computeFloors20, blank]; norm_num
  · simp only [computeFloors20, blank]; norm_num
  · simp only [computeFloors20, blank]; norm_num
  · simp only [floorPrice, round2]
    push_cast
    rw [zero_div, zero_div, mul_zero, sub_zero, mul_one]
    rw [show ((50 : ℝ) * 100) = ((5000 : ℤ) : ℝ) by norm_num, round_intCast]
    norm_num

/- ------------------------------------------------------------------ -/
/- Claims C3, C8, C9: the screening filter                            -/
/- ------------------------------------------------------------------ -/

theorem expandRow_bid {m : MRow} {r : SRow} (h : r ∈ expandRow m) : r.bidPrice = m.bidPrice := by
  simp only [expandRow, List.mem_filterMap] at h
  obtain ⟨e, _, he⟩ := h
  by_cases hc : e.1 = some 1
  · rw [if_pos hc] at he
    obtain rfl := Option.some_injective _ he
    rfl
  · rw [if_neg hc] at he
    exact absurd he (by simp)

theorem expandRow_filter_bid (m : MRow) :
    (expandRow m).filter (fun r => r.bidPrice.isSome) =
      if m.bidPrice.isSome then expandRow m else [] := by
  by_cases hb : m.bidPrice.isSome
  · rw [if_pos hb, List.filter_eq_self]
    intro r hr
    rw [expandRow_bid hr]
    exact hb
  · rw [if_neg hb]
    rw [List.filter_eq_nil_iff]
    intro r hr
    rw [expandRow_bid hr]
    simpa using hb

theorem expandAll_filter (merged : List MRow) :
    expandAll (merged.filter (fun m => m.bidPrice.isSome)) =
      (expandAll merged).filter (fun r => r.bidPrice.isSome) := by
  induction merged with
  | nil => rfl
  | cons m rest ih =>
    show expandAll (List.filter _ (m :: rest)) = List.filter _ (expandRow m ++ expandAll rest)
    rw [List.filter_append, ← ih, expandRow_filter_bid, List.filter_cons]
    by_cases hb : m.bidPrice.isSome
    · rw [if_pos hb, if_pos hb]
      rfl
    · rw [if_neg (by simpa using hb), if_neg (by simpa using hb)]
      simp

/-- The screening tail of the source equals the six §4.5 stages, in their
fixed order, applied to the expanded (enriched) table: the only difference
in the source is that the missing-bid filter runs just before the
expansion, and filtering by `bidPrice` commutes with the expansion. -/
theorem read_eq_screenFilter (pt : ℚ) (merged : List MRow) :
    read_and_filter_stocks pt merged = screenFilter pt (expandAll merged) := by
  simp only [read_and_filter_stocks, screenFilter, stage1, stage2, stage3, stage4, stage5,
    stage6]
  rw [expandAll_filter]

/-- C3: the Screening Filter applies exactly the six stages, in the fixed
order drop-missing-bid, compute-profitability, profit threshold, delta
floor, drop-zero-bid, spread ceiling, to the enriched table; every
filtering stage only removes rows (it yields a sublist), and the
profitability stage only fills the `profitability` column, leaving every
other column of a surviving row unchanged. -/
theorem claim_C3 :
    (∀ (pt : ℚ) (merged : List MRow),
      read_and_filter_stocks pt merged = screenFilter pt (expandAll merged)) ∧
    (∀ l : List SRow, List.Sublist (stage1 l) l) ∧
    (∀ l : List SRow, (stage2 l).length = l.length) ∧
    (∀ (pt : ℚ) (l : List SRow), List.Sublist (stage3 pt l) l) ∧
    (∀ l : List SRow, List.Sublist (stage4 l) l) ∧
    (∀ l : List SRow, List.Sublist (stage5 l) l) ∧
    (∀ l : List SRow, List.Sublist (stage6 l) l) ∧
    (∀ r : SRow, { addProf r with profitability := r.profitability } = r) := by
  refine ⟨read_eq_screenFilter, ?_, ?_, ?_, ?_, ?_, ?_, ?_⟩
  · intro l; exact List.filter_sublist l
  · intro l; exact List.length_map l addProf
  · intro pt l; exact List.filter_sublist l
  · intro l; exact List.filter_sublist l
  · intro l; exact List.filter_sublist l
  · intro l; exact List.filter_sublist l
  · intro r; rfl

theorem addProf_addProf (r : SRow) : addProf (addProf r) = addProf r := rfl

theorem mem_screenFilter {pt : ℚ} {l : List SRow} {r : SRow} (h : r ∈ screenFilter pt l) :
    r.bidPrice.isSome = true ∧ addProf r = r ∧ optGe r.profitability pt = true ∧
      optGe r.delta (-3 / 20) = true ∧ r.bidPrice ≠ some 0 ∧ spreadPred r = true := by
  simp only [screenFilter, stage6, stage5, stage4, stage3, stage2, stage1] at h
  rw [List.mem_filter] at h
  obtain ⟨h, hspread⟩ := h
  rw [List.mem_filter] at h
  obtain ⟨h, hbid0⟩ := h
  rw [List.mem_filter] at h
  obtain ⟨h, hdelta⟩ := h
  rw [List.mem_filter] at h
  obtain ⟨h, hprof⟩ := h
  rw [List.mem_map] at h
  obtain ⟨r0, hr0, rfl⟩ := h
  rw [List.mem_filter] at hr0
  exact ⟨hr0.2, addProf_addProf r0, hprof, hdelta, of_decide_eq_true hbid0, hspread⟩

/-- C9: the Screening Filter is idempotent — applying the six-stage
sequence to its own output returns that output unchanged. -/
theorem claim_C9 (pt : ℚ) (l : List SRow) :
    screenFilter pt (screenFilter pt l) = screenFilter pt l := by
  have hm := fun (r : SRow) (hr : r ∈ screenFilter pt l) => mem_screenFilter hr
  show stage6 (stage5 (stage4 (stage3 pt (stage2 (stage1 (screenFilter pt l)))))) =
    screenFilter pt l
  rw [show stage1 (screenFilter pt l) = screenFilter pt l from
    List.filter_eq_self.mpr (fun r hr => (hm r hr).1)]
  rw [show stage2 (screenFilter pt l) = screenFilter pt l by
    unfold stage2
    rw [List.map_congr_left (fun r hr => (hm r hr).2.1), List.map_id']]
  rw [show stage3 pt (screenFilter pt l) = screenFilter pt l from
    List.filter_eq_self.mpr (fun r hr => (hm r hr).2.2.1)]
  rw [show stage4 (screenFilter pt l) = screenFilter pt l from
    List.filter_eq_self.mpr (fun r hr => (hm r hr).2.2.2.1)]
  rw [show stage5 (screenFilter pt l) = screenFilter pt l from
    List.filter_eq_self.mpr (fun r hr => decide_eq_true (hm r hr).2.2.2.2.1)]
  exact List.filter_eq_self.mpr (fun r hr => (hm r hr).2.2.2.2.2)

/-- C8: no zero-bid row survives screening — every row of the final output
has a present, nonzero `bidPrice` — and every row that reaches the
spread stage (stage 6) already has `bidPrice ≠ 0`, so its
`askPrice / bidPrice` never divides by a zero bid. -/
theorem claim_C8 :
    (∀ (pt : ℚ) (merged : List MRow) (r : SRow), r ∈ read_and_filter_stocks pt merged →
      ∃ b, r.bidPrice = some b ∧ b ≠ 0) ∧
    (∀ (l : List SRow) (r : SRow), r ∈ stage5 l → r.bidPrice ≠ some 0) := by
  constructor
  · intro pt merged r hr
    rw [read_eq_screenFilter] at hr
    obtain ⟨hsome, _, _, _, hne, _⟩ := mem_screenFilter hr
    obtain ⟨b, hb⟩ := Option.isSome_iff_exists.mp hsome
    refine ⟨b, hb, ?_⟩
    intro hb0
    rw [hb0] at hb
    exact hne hb
  · intro l r hr
    unfold stage5 at hr
    rw [List.mem_filter] at hr
    exact of_decide_eq_true hr.2

/-- Fixture merged row for the C8 witness: a matched put with strike 95,
bid 1.00, ask 1.20, delta −0.10, tagged for `Floor_20_2`. -/
def mExample : MRow :=
  { symbol := "XYZ", currentPrice := some 120, floor20_1 := none, floor20_2 := none,
    floor20_3 := none, floor50_1 := none, floor50_2 := none, floor50_3 := none,
    strikePrice := some 95, bidPrice := some 1, askPrice := some (6 / 5),
    delta := some (-1 / 10), volatility := none, tag20_1 := none, tag20_2 := some 1,
    tag20_3 := none, tag50_1 := none, tag50_2 := none, tag50_3 := none }

/-- The screened output row produced from `mExample`. -/
def sExample : SRow :=
  { symbol := "XYZ", currentPrice := some 120, floorTag := "Floor_20_2", floorValue := none,
    strikePrice := some 95, bidPrice := some 1, askPrice := some (6 / 5),
    delta := some (-1 / 10), volatility := none, profitability := some (11 / 950) }

theorem read_example_eval : read_and_filter_stocks (1 / 100) [mExample] = [sExample] := by
  norm_num [read_and_filter_stocks, expandAll, expandRow, tagList, addProf, profOf, optGe,
    spreadPred, mExample, sExample, List.filter, List.filterMap]

/-- Witness for C8: the surviving concrete row has a nonzero bid. -/
theorem claim_C8_witness : ∃ b, sExample.bidPrice = some b ∧ b ≠ 0 :=
  claim_C8.1 (1 / 100) [mExample] sExample
    (by rw [read_example_eval]; exact List.mem_singleton.mpr rfl)

/- ------------------------------------------------------------------ -/
/- Claim C5: one quote per target, at most N rows                     -/
/- ------------------------------------------------------------------ -/

theorem key_nodup_eq {α β : Type _} :
    ∀ (ts : List (α × β)) (l : α) (v w : β),
      (ts.map Prod.fst).Nodup → (l, v) ∈ ts → (l, w) ∈ ts → v = w := by
  intro ts
  induction ts with
  | nil => intro l v w _ hv _; simp at hv
  | cons t rest ih =>
    intro l v w hnd hv hw
    rw [List.map_cons, List.nodup_cons] at hnd
    obtain ⟨hhead, htail⟩ := hnd
    rcases List.mem_cons.mp hv with hv1 | hv1 <;> rcases List.mem_cons.mp hw with hw1 | hw1
    · rw [← hv1] at hw1
      exact (Prod.mk.injEq l v l w).mp hw1.symm |>.2
    · exfalso
      apply hhead
      rw [← hv1]
      exact List.mem_map.mpr ⟨(l, w), hw1, rfl⟩
    · exfalso
      apply hhead
      rw [← hw1]
      exact List.mem_map.mpr ⟨(l, v), hv1, rfl⟩
    · exact ih l v w htail hv1 hw1

theorem countP_eq_one_nodup :
    ∀ (L : List ℕ) (j : ℕ), L.Nodup → j ∈ L →
      L.countP (fun i => decide (i = j)) = 1 := by
  intro L
  induction L with
  | nil => intro j _ hj; simp at hj
  | cons a rest ih =>
    intro j hnd hj
    rw [List.nodup_cons] at hnd
    rw [List.countP_cons]
    rcases List.mem_cons.mp hj with rfl | hj'
    · have hzero : rest.countP (fun i => decide (i = j)) = 0 := by
        apply List.countP_eq_zero.mpr
        intro i hi
        simp only [decide_eq_true_eq]
        intro hij
        rw [hij] at hi
        exact hnd.1 hi
      simp [hzero]
    · have hne : a ≠ j := by
        intro haj
        rw [haj] at hnd
        exact hnd.1 hj'
      simp only [decide_eq_true_eq, if_neg hne, hne]
      simpa using ih j hnd.2 hj'

/-- C5: for a symbol with `N` target strikes requested, the selection
returns at most `N` rows (zero when the source returned no puts), and —
for distinct target labels on a non-empty chain — each target ends up
tagged on exactly one returned row, even when several targets share the
same underlying quote row. -/
theorem claim_C5 :
    (∀ (puts : List PutRow) (targets : List (String × ℚ)),
      (get_barchart_put_options puts targets).length ≤ targets.length) ∧
    (∀ targets : List (String × ℚ), get_barchart_put_options [] targets = []) ∧
    (∀ (puts : List PutRow) (targets : List (String × ℚ)) (l : String) (v : ℚ),
      (l, v) ∈ targets → (targets.map Prod.fst).Nodup → puts ≠ [] →
      (get_barchart_put_options puts targets).countP (fun tr => decide (l ∈ tr.tags)) = 1) := by
  refine ⟨?_, ?_, ?_⟩
  · intro puts targets
    simp only [get_barchart_put_options]
    rw [List.length_map]
    exact le_trans (List.dedup_sublist _).length_le (List.length_filterMap_le _ _)
  · intro targets
    simp only [get_barchart_put_options]
    have h : targets.filterMap (fun lv => chosenIdx ([] : List PutRow) lv.2) = [] := by
      induction targets with
      | nil => rfl
      | cons t rest ih => simp [List.filterMap_cons, chosenIdx, idxminD, ih]
    rw [h]
    rfl
  · intro puts targets l v hlv hnd hne
    obtain ⟨j, hj⟩ : ∃ j, chosenIdx puts v = some j := by
      cases puts with
      | nil => exact absurd rfl hne
      | cons p0 ps =>
        simp only [chosenIdx, List.map_cons]
        exact idxminD_isSome v _ _
    simp only [get_barchart_put_options]
    rw [List.countP_map]
    have hpt : ∀ i ∈ (targets.filterMap (fun lv => chosenIdx puts lv.2)).dedup,
        (((fun tr : TaggedRow => decide (l ∈ tr.tags)) ∘ (fun i =>
          ({ row := puts.getD i dummyPut
             tags := (targets.filter (fun lv => decide (chosenIdx puts lv.2 = some i))).map
               (fun lv => lv.1) } : TaggedRow))) i = true ↔ decide (i = j) = true) := by
      intro i _
      simp only [Function.comp, decide_eq_true_eq]
      constructor
      · intro hmem
        obtain ⟨lv, hlvmem, hfst⟩ := List.mem_map.mp hmem
        obtain ⟨hlv2, hdec⟩ := List.mem_filter.mp hlvmem
        have hchosen : chosenIdx puts lv.2 = some i := of_decide_eq_true hdec
        have hlmem : (l, lv.2) ∈ targets := by
          have : lv = (l, lv.2) := by
            rw [Prod.ext_iff]
            exact ⟨hfst, rfl⟩
          rw [← this]
          exact hlv2
        have hv2 : lv.2 = v := key_nodup_eq targets l lv.2 v hnd hlmem hlv
        rw [hv2] at hchosen
        rw [hchosen] at hj
        exact Option.some_injective _ hj
      · intro hij
        subst hij
        exact List.mem_map.mpr ⟨(l, v), List.mem_filter.mpr ⟨hlv, decide_eq_true hj⟩, rfl⟩
    rw [List.countP_congr hpt]
    apply countP_eq_one_nodup
    · exact List.nodup_dedup _
    · exact List.mem_dedup.mpr (List.mem_filterMap.mpr ⟨(l, v), hlv, hj⟩)

/-- Witness for C5: on the 90/95/100/105 chain with two distinct targets
that both match strike 95, the label of the first target tags exactly one
returned row. -/
theorem claim_C5_witness :
    (get_barchart_put_options putChain97 [("Floor_20_1", 96), ("Floor_20_2", 94)]).countP
      (fun tr => decide ("Floor_20_1" ∈ tr.tags)) = 1 :=
  claim_C5.2.2 putChain97 [("Floor_20_1", 96), ("Floor_20_2", 94)] "Floor_20_1" 96
    (by simp) (by simp) (by simp [putChain97])

end StocksAutomation
